import Mathlib

/-!
Verification development for the rss-telegram-feed repository.

Go strings are modelled as byte sequences (`GoStr := List Nat`, every element
a byte value `< 256`), matching the Go representation.  Unicode-aware library
operations (`for range` rune iteration, `strings.ToLower`) are modelled by an
explicit UTF-8 decoder/encoder over those byte lists, following the semantics
of the Go `unicode/utf8` package (invalid encodings yield U+FFFD and advance one
byte, exactly as the Go `range` loop does).

The file first defines the data model and the operations translated from the
source, then states and proves the theorems for the claims.
-/

namespace Rss

/-- A Go string: a sequence of bytes. -/
abbrev GoStr := List Nat

/-- UTF-8 encoding of one code point, following the Go `utf8.AppendRune`:
surrogate code points and out-of-range values encode as U+FFFD. -/
def utf8EncodeRune (c : Nat) : List Nat :=
  if c < 0x80 then [c]
  else if c < 0x800 then [0xC0 + c / 64, 0x80 + c % 64]
  else if 0xD800 ≤ c ∧ c ≤ 0xDFFF then [0xEF, 0xBF, 0xBD]
  else if c < 0x10000 then [0xE0 + c / 4096, 0x80 + (c / 64) % 64, 0x80 + c % 64]
  else if c ≤ 0x10FFFF then
    [0xF0 + c / 262144, 0x80 + (c / 4096) % 64, 0x80 + (c / 64) % 64, 0x80 + c % 64]
  else [0xEF, 0xBF, 0xBD]

/-- Embed a Lean string literal as a Go byte string (UTF-8 bytes). -/
def gostr (s : String) : GoStr :=
  (s.data.map Char.toNat).flatMap utf8EncodeRune

/-- Continuation byte test for UTF-8 decoding. -/
def isCont (b : Nat) : Bool := 0x80 ≤ b ∧ b ≤ 0xBF

/-- Accepted range of the first continuation byte of a three-byte sequence
(Go `utf8.acceptRanges`): rejects overlong encodings and surrogates. -/
def accept3 (b0 b1 : Nat) : Bool :=
  if b0 = 0xE0 then 0xA0 ≤ b1 ∧ b1 ≤ 0xBF
  else if b0 = 0xED then 0x80 ≤ b1 ∧ b1 ≤ 0x9F
  else isCont b1

/-- Accepted range of the first continuation byte of a four-byte sequence
(Go `utf8.acceptRanges`): rejects overlong encodings and values above U+10FFFF. -/
def accept4 (b0 b1 : Nat) : Bool :=
  if b0 = 0xF0 then 0x90 ≤ b1 ∧ b1 ≤ 0xBF
  else if b0 = 0xF4 then 0x80 ≤ b1 ∧ b1 ≤ 0x8F
  else isCont b1

/-- Fuelled UTF-8 decoding step function: the fuel only forces structural
termination; every step consumes at least one byte, so fuel equal to the byte
length of the input is always sufficient. -/
def utf8DecodeF : Nat → GoStr → List Nat
  | _, [] => []
  | 0, _ :: _ => []
  | fuel + 1, b0 :: rest =>
    if b0 < 0x80 then b0 :: utf8DecodeF fuel rest
    else if 0xC2 ≤ b0 ∧ b0 ≤ 0xDF then
      match rest with
      | b1 :: rest1 =>
        if isCont b1 then ((b0 - 0xC0) * 64 + (b1 - 0x80)) :: utf8DecodeF fuel rest1
        else 0xFFFD :: utf8DecodeF fuel (b1 :: rest1)
      | [] => [0xFFFD]
    else if 0xE0 ≤ b0 ∧ b0 ≤ 0xEF then
      match rest with
      | b1 :: b2 :: rest2 =>
        if accept3 b0 b1 ∧ isCont b2 then
          (((b0 - 0xE0) * 64 + (b1 - 0x80)) * 64 + (b2 - 0x80)) :: utf8DecodeF fuel rest2
        else 0xFFFD :: utf8DecodeF fuel (b1 :: b2 :: rest2)
      | other => 0xFFFD :: utf8DecodeF fuel other
    else if 0xF0 ≤ b0 ∧ b0 ≤ 0xF4 then
      match rest with
      | b1 :: b2 :: b3 :: rest3 =>
        if accept4 b0 b1 ∧ isCont b2 ∧ isCont b3 then
          ((((b0 - 0xF0) * 64 + (b1 - 0x80)) * 64 + (b2 - 0x80)) * 64 + (b3 - 0x80))
            :: utf8DecodeF fuel rest3
        else 0xFFFD :: utf8DecodeF fuel (b1 :: b2 :: b3 :: rest3)
      | other => 0xFFFD :: utf8DecodeF fuel other
    else 0xFFFD :: utf8DecodeF fuel rest

/-- UTF-8 decoding of a byte sequence into code points, with the semantics of
the Go `for range` over a string: each invalid byte yields U+FFFD (0xFFFD) and
decoding resumes at the next byte. -/
def utf8Decode (s : GoStr) : List Nat := utf8DecodeF s.length s

/-- Model of the Go `unicode.ToLower` on code points.  It agrees with Go on every
code point below U+0100 (ASCII `A`-`Z` and the Latin-1 uppercase range `À`-`Þ`
except `×` map down by 32; everything else in that range is fixed).  Code
points at or above U+0100 are left unchanged in this model; no theorem below
evaluates the function there. -/
def unicodeToLower (c : Nat) : Nat :=
  if 0x41 ≤ c ∧ c ≤ 0x5A then c + 32
  else if (0xC0 ≤ c ∧ c ≤ 0xDE) ∧ c ≠ 0xD7 then c + 32
  else c

/-- Model of the Go `strings.ToLower`: decode UTF-8, lower-case each rune,
re-encode. -/
def stringsToLower (s : GoStr) : GoStr :=
  ((utf8Decode s).map unicodeToLower).flatMap utf8EncodeRune

/-- Model of the Go `strings.Contains(s, sub)`: `sub` occurs as a contiguous
byte substring of `s`. -/
def goContains (s sub : GoStr) : Bool := decide (sub <:+: s)

/-- The `containsKeyword` from the flat bot handler: empty keyword never matches;
otherwise case-insensitive (Unicode `strings.ToLower`) substring test. -/
def containsKeyword (text keyword : GoStr) : Bool :=
  if keyword.length = 0 then false
  else goContains (stringsToLower text) (stringsToLower keyword)

/-- The `toLower` from the modular channel service: byte-wise ASCII lower-casing. -/
def toLower (s : GoStr) : GoStr :=
  s.map fun c => if 65 ≤ c ∧ c ≤ 90 then c + 32 else c

/-- The `containsSubstring` from the modular channel service: byte-wise lowered
substring scan, `for i := 0; i <= len(textLower)-len(substrLower); i++`.
The loop bound is computed in `Int` as in Go (a negative bound runs zero
iterations). -/
def containsSubstring (text substr : GoStr) : Bool :=
  let textLower := toLower text
  let substrLower := toLower substr
  (List.range ((textLower.length : Int) - substrLower.length + 1).toNat).any
    fun i => decide ((textLower.drop i).take substrLower.length = substrLower)

/-- The `contains` from the modular channel service. -/
def contains (text keyword : GoStr) : Bool :=
  keyword.length > 0 && text.length ≥ keyword.length &&
    (text == keyword || containsSubstring text keyword)

/-- The `FilterType` (go-enum: keywords, exclude_keywords, author). -/
inductive FilterType where
  | keywords
  | excludeKeywords
  | author
deriving DecidableEq, Repr

/-- A content filter attached to a channel. -/
structure Filter where
  type : FilterType
  keywords : List GoStr
  enabled : Bool
deriving DecidableEq, Repr

/-- The `BotHandler.passesFilters` from the flat implementation, with the
effective text already selected: early `true` on an empty filter list, then
one pass over the filters with short-circuit rejection.  Keyword matching is
`containsKeyword` (Unicode lower-casing). -/
def botPassesFilters (filters : List Filter) (text : GoStr) : Bool :=
  if filters.length = 0 then true
  else botFiltersLoop filters text
where
  /-- The `for _, filter := range channel.Filters` loop body. -/
  botFiltersLoop : List Filter → GoStr → Bool
  | [], _ => true
  | f :: rest, text =>
    if !f.enabled then botFiltersLoop rest text
    else
      match f.type with
      | FilterType.keywords =>
        if f.keywords.any (fun kw => containsKeyword text kw) then botFiltersLoop rest text
        else false
      | FilterType.excludeKeywords =>
        if f.keywords.any (fun kw => containsKeyword text kw) then false
        else botFiltersLoop rest text
      | FilterType.author => botFiltersLoop rest text

/-- The effective-text selection in the flat `passesFilters` (and in the
modular transport handler): the message text, or the caption when the text is
empty and the caption is not. -/
def effectiveText (text caption : GoStr) : GoStr :=
  if text = [] ∧ caption ≠ [] then caption else text

/-- The `Service.passesFilters` from the modular channel service: same loop shape,
keyword matching via `contains` (byte-wise ASCII lower-casing). -/
def svcPassesFilters (filters : List Filter) (text : GoStr) : Bool :=
  if filters.length = 0 then true
  else svcFiltersLoop filters text
where
  /-- The `for _, filter := range channel.Filters` loop body. -/
  svcFiltersLoop : List Filter → GoStr → Bool
  | [], _ => true
  | f :: rest, text =>
    if !f.enabled then svcFiltersLoop rest text
    else
      match f.type with
      | FilterType.keywords =>
        if f.keywords.any (fun kw => contains text kw) then svcFiltersLoop rest text
        else false
      | FilterType.excludeKeywords =>
        if f.keywords.any (fun kw => contains text kw) then false
        else svcFiltersLoop rest text
      | FilterType.author => svcFiltersLoop rest text

example : botPassesFilters [⟨FilterType.keywords, [gostr "tech"], true⟩] (gostr "new tech release") = true := by decide
example : botPassesFilters [⟨FilterType.keywords, [gostr "tech"], true⟩] (gostr "cooking tips") = false := by decide
example : svcPassesFilters [⟨FilterType.excludeKeywords, [gostr "spam"], true⟩] (gostr "this is spam content") = false := by decide
example : svcPassesFilters [⟨FilterType.excludeKeywords, [gostr "spam"], true⟩] (gostr "clean content") = true := by decide
example : botPassesFilters [⟨FilterType.keywords, [gostr "ä"], true⟩] (gostr "Ä") = true := by decide
example : svcPassesFilters [⟨FilterType.keywords, [gostr "ä"], true⟩] (gostr "Ä") = false := by decide

/-- The `MediaType` (go-enum: photo, video, document, audio). -/
inductive MediaType where
  | photo
  | video
  | document
  | audio
deriving DecidableEq, Repr

/-- The string value of a `MediaType`, as printed by `verb of `%s` verb
(go-enum value names). -/
def mediaTypeStr : MediaType → GoStr
  | MediaType.photo => gostr "photo"
  | MediaType.video => gostr "video"
  | MediaType.document => gostr "document"
  | MediaType.audio => gostr "audio"

/-- One media attachment of a message. -/
structure Media where
  type : MediaType
  fileID : GoStr
  url : GoStr
  thumbnail : GoStr
  caption : GoStr
deriving DecidableEq, Repr

/-- A stored message.  Timestamps are Unix seconds. -/
structure Message where
  id : Int
  channelId : GoStr
  channelName : GoStr
  text : GoStr
  date : Int
  author : GoStr
  media : List Media
  link : GoStr
deriving DecidableEq, Repr

/-- A monitored channel. -/
structure Channel where
  id : GoStr
  username : GoStr
  title : GoStr
  addedBy : Int
  addedAt : Int
  filters : List Filter
  lastUpdate : Int
  isActive : Bool
deriving DecidableEq, Repr

/-- the Go `%d` rendering of an integer as a byte string. -/
def intRepr (i : Int) : GoStr := gostr (toString i)

/-- The storage file name of a message: `fmt.Sprintf("%d.json", message.ID)`. -/
def fileNameFor (id : Int) : GoStr := intRepr id ++ gostr ".json"

/-- Byte-wise lexicographic order on byte strings: the order in which
`os.ReadDir` returns directory entries (Go sorts `DirEntry` names with the
built-in string `<`). -/
def lexLt : GoStr → GoStr → Bool
  | [], [] => false
  | [], _ :: _ => true
  | _ :: _, [] => false
  | a :: as, b :: bs => if a < b then true else if b < a then false else lexLt as bs

/-- Association-list lookup by key (file-system lookup by name). -/
def assocGet {α : Type} (k : GoStr) : List (GoStr × α) → Option α
  | [] => none
  | (k0, v) :: rest => if k = k0 then some v else assocGet k rest

/-- Association-list upsert by key: overwrite in place, else append. -/
def assocSet {α : Type} (k : GoStr) (v : α) : List (GoStr × α) → List (GoStr × α)
  | [] => [(k, v)]
  | (k0, v0) :: rest =>
    if k = k0 then (k, v) :: rest else (k0, v0) :: assocSet k v rest

/-- The message directory of one channel as the file system holds it: file name to
parsed content, kept in ascending `lexLt` name order (a directory is a set of
files, and `os.ReadDir` presents it sorted by name). -/
abbrev MsgDir := List (GoStr × Message)

/-- Writing a file into a sorted directory: overwrite the file with the same
name, otherwise insert at the sorted position. -/
def dirWrite (name : GoStr) (m : Message) : MsgDir → MsgDir
  | [] => [(name, m)]
  | (n, v) :: rest =>
    if name = n then (name, m) :: rest
    else if lexLt name n then (name, m) :: (n, v) :: rest
    else (n, v) :: dirWrite name m rest

/-- The `messages/` tree: channel id to the directory of that channel; a channel
with no stored messages has no entry (its directory does not exist). -/
abbrev MsgStore := List (GoStr × MsgDir)

/-- The `channels/` directory: channel id to stored channel record. -/
abbrev ChanStore := List (GoStr × Channel)

/-- The `FileStorage.SaveMessage`: create the channel message directory if
absent, then write (creating or overwriting) `"{message.ID}.json"`. -/
def saveMessage (st : MsgStore) (m : Message) : MsgStore :=
  let dir := (assocGet m.channelId st).getD []
  assocSet m.channelId (dirWrite (fileNameFor m.id) m dir) st

/-- The `FileStorage.SaveChannel`: upsert the record keyed by the channel id. -/
def saveChannel (st : ChanStore) (ch : Channel) : ChanStore :=
  assocSet ch.id ch st

/-- The `FileStorage.GetChannel`: `none` models the `os.IsNotExist` branch
(`ErrChannelNotFound`). -/
def getChannel (st : ChanStore) (channelID : GoStr) : Option Channel :=
  assocGet channelID st

/-- The `filepath.Ext(name) == ".json"`: the name ends in `".json"` (the four
characters after the final dot are then exactly `json`). -/
def hasJsonExt (name : GoStr) : Bool := decide (gostr ".json" <:+ name)

/-- The listing loop of `FileStorage.GetMessages`: walk the sorted directory
entries from the last backwards, skip entries without a `.json` extension, and
collect file contents until `limit` are taken. -/
def listDirMessages (dir : MsgDir) (limit : Nat) : List Message :=
  (((dir.reverse).filter fun e => hasJsonExt e.1).take limit).map fun e => e.2

/-- A storage-layer failure (I/O or serialization). -/
inductive StoreErr where
  | storeError
deriving DecidableEq, Repr

/-- The `FileStorage.GetMessages`: a missing channel directory (`os.IsNotExist`)
returns the empty list with a nil error. -/
def getMessages (st : MsgStore) (channelID : GoStr) (limit : Nat) :
    Except StoreErr (List Message) :=
  match assocGet channelID st with
  | none => Except.ok []
  | some dir => Except.ok (listDirMessages dir limit)

/-- The persisted state both pipeline variants operate on. -/
structure SysState where
  channels : ChanStore
  messages : MsgStore
deriving DecidableEq, Repr

/-- The error of the ingestion pipeline: a wrapped store error from message
persistence. -/
inductive IngestErr where
  | ingestError
deriving DecidableEq, Repr

/-- The `Service.ProcessMessage` from the modular channel service.  `saveMsgOk`
and `saveChOk` model whether the message-repository and channel-repository
writes succeed (a failed file write leaves the store unchanged and returns an
error to `ProcessMessage`). -/
def processMessage (saveMsgOk saveChOk : Bool) (now : Int) (ch : Channel)
    (msgText : GoStr) (msgDate msgId : Int) (author : GoStr)
    (media : List Media) (link : GoStr) (st : SysState) :
    Except IngestErr Unit × SysState :=
  if !svcPassesFilters ch.filters msgText then (Except.ok (), st)
  else
    let message : Message :=
      ⟨msgId, ch.id, ch.title, msgText, msgDate, author, media, link⟩
    if !saveMsgOk then (Except.error IngestErr.ingestError, st)
    else
      let st1 : SysState := { st with messages := saveMessage st.messages message }
      let ch1 : Channel := { ch with lastUpdate := now }
      if !saveChOk then (Except.ok (), st1)
      else (Except.ok (), { st1 with channels := saveChannel st1.channels ch1 })

/-- The `Handler.processChannelPost` from the modular transport layer: look up the
channel by the post's chat id, silently ignore an unknown or inactive channel,
select the effective text, and delegate to `processMessage` (whose error is
only logged — the handler itself reports nothing to the caller). -/
def processChannelPost (saveMsgOk saveChOk : Bool) (now : Int) (st : SysState)
    (chatId : Int) (text caption : GoStr) (msgDate msgId : Int)
    (author : GoStr) (media : List Media) : SysState :=
  let channelID := intRepr chatId
  match getChannel st.channels channelID with
  | none => st
  | some ch =>
    if !ch.isActive then st
    else
      let link := gostr "https://t.me/" ++ ch.username ++ gostr "/" ++ intRepr msgId
      (processMessage saveMsgOk saveChOk now ch (effectiveText text caption)
        msgDate msgId author media link st).2

/-- The `BotHandler.processChannelPost` from the flat implementation: look up the
channel, ignore unknown or inactive channels, build the message record from
`msg.Text` (the raw text, not the caption fallback), apply `passesFilters`
(which itself uses the caption fallback), save the message, and call the
feed-service `UpdateFeed` (a no-op).  The channel record is never written. -/
def botProcessChannelPost (saveMsgOk : Bool) (st : SysState) (chatId : Int)
    (text caption : GoStr) (msgDate msgId : Int) (author : GoStr)
    (media : List Media) : SysState :=
  let channelID := intRepr chatId
  match getChannel st.channels channelID with
  | none => st
  | some ch =>
    if !ch.isActive then st
    else
      let link := gostr "https://t.me/" ++ ch.username ++ gostr "/" ++ intRepr msgId
      let message : Message :=
        ⟨msgId, channelID, ch.title, text, msgDate, author, media, link⟩
      if !botPassesFilters ch.filters (effectiveText text caption) then st
      else if !saveMsgOk then st
      else { st with messages := saveMessage st.messages message }

/-- The `truncate` from the feed service: identity when the byte length is within
`maxLen`, else the first `maxLen` bytes with a literal `"..."` appended. -/
def truncate (s : GoStr) (maxLen : Nat) : GoStr :=
  if s.length ≤ maxLen then s else s.take maxLen ++ gostr "..."

/-- The code points of a Lean string literal (for the rune-level escape
replacements). -/
def runes (s : String) : List Nat := s.data.map Char.toNat

/-- The per-rune replacement of the `switch` inside `escapeHTML`. -/
def escapeRune (r : Nat) : List Nat :=
  if r = 60 then runes "&lt;"
  else if r = 62 then runes "&gt;"
  else if r = 38 then runes "&amp;"
  else if r = 34 then runes "&quot;"
  else if r = 39 then runes "&#39;"
  else [r]

/-- The `escapeHTML` from the feed service: a `for range` pass over the runes of
the input collecting replacement runes, re-encoded to a string at the end. -/
def escapeHTML (s : GoStr) : GoStr :=
  ((utf8Decode s).flatMap escapeRune).flatMap utf8EncodeRune

/-- A generated feed entry (`feeds.Item`; only the fields the feed service
sets). -/
structure FeedItem where
  title : GoStr
  link : GoStr
  description : GoStr
  content : GoStr
  author : GoStr
  created : Int
  id : GoStr
deriving DecidableEq, Repr

/-- A generated feed document (`feeds.Feed`; only the fields the feed service
sets). -/
structure Feed where
  title : GoStr
  link : GoStr
  description : GoStr
  author : GoStr
  created : Int
  updated : Int
  items : List FeedItem
deriving DecidableEq, Repr

/-- The media listing appended to the plain-text description, one
`"- {type}: {fileID}\n"` line per attachment plus an optional
`"  Caption: {caption}\n"` line. -/
def mediaDescription (media : List Media) : GoStr :=
  media.flatMap fun md =>
    gostr "- " ++ mediaTypeStr md.type ++ gostr ": " ++ md.fileID ++ gostr "\n" ++
      (if md.caption ≠ [] then gostr "  Caption: " ++ md.caption ++ gostr "\n" else [])

/-- The HTML media list appended to the rich content. -/
def mediaContent (media : List Media) : GoStr :=
  media.flatMap fun md =>
    gostr "<li>" ++ mediaTypeStr md.type ++ gostr ": " ++ md.fileID ++ gostr "</li>"

/-- The `messageToFeedItem` from the feed service. -/
def messageToFeedItem (m : Message) : FeedItem :=
  let description0 := if m.text = [] then gostr "No text content" else m.text
  let description :=
    if m.media.length > 0 then
      description0 ++ gostr "\n\nMedia:\n" ++ mediaDescription m.media
    else description0
  let content0 := gostr "<p>" ++ escapeHTML description ++ gostr "</p>"
  let content :=
    if m.media.length > 0 then
      content0 ++ gostr "<p><strong>Media attachments:</strong></p><ul>" ++
        mediaContent m.media ++ gostr "</ul>"
    else content0
  { title := truncate m.text 100
    link := m.link
    description := description
    content := content
    author := m.author
    created := m.date
    id := m.channelId ++ gostr "-" ++ intRepr m.id }

/-- Feed generation failure: missing channel, or a propagated store error. -/
inductive FeedErr where
  | notFound
  | storeError
deriving DecidableEq, Repr

/-- The `Service.GenerateFeed`: fetch the channel (NotFound when absent), fetch up
to the 50 most recently listed messages, and build the feed document with one
entry per message. -/
def generateFeed (st : SysState) (channelID baseURL : GoStr) :
    Except FeedErr Feed :=
  match getChannel st.channels channelID with
  | none => Except.error FeedErr.notFound
  | some ch =>
    match getMessages st.messages channelID 50 with
    | Except.error _ => Except.error FeedErr.storeError
    | Except.ok msgs =>
      Except.ok
        { title := ch.title ++ gostr " - RSS Feed"
          link := baseURL ++ gostr "/rss/" ++ ch.id
          description := gostr "RSS feed for Telegram channel: " ++ ch.title
          author := ch.username
          created := ch.addedAt
          updated := ch.lastUpdate
          items := msgs.map messageToFeedItem }

/-! ### Helper lemmas -/

theorem lexLt_irrefl : ∀ a : GoStr, lexLt a a = false
  | [] => rfl
  | x :: xs => by simp [lexLt, lexLt_irrefl xs]

theorem lexLt_ne {a b : GoStr} (h : lexLt a b = true) : a ≠ b := by
  intro hab
  rw [hab, lexLt_irrefl] at h
  exact Bool.false_ne_true h

theorem lexLt_cons {a b : Nat} {as bs : GoStr} :
    lexLt (a :: as) (b :: bs) = true ↔ a < b ∨ (a = b ∧ lexLt as bs = true) := by
  simp only [lexLt]
  by_cases h1 : a < b
  · simp [h1]
  · by_cases h2 : b < a
    · simp [h1, h2]; omega
    · have h3 : a = b := by omega
      simp [h1, h2, h3]

theorem lexLt_trans : ∀ a b c : GoStr,
    lexLt a b = true → lexLt b c = true → lexLt a c = true
  | [], b, c, _, hbc => by
    cases c with
    | nil =>
      cases b with
      | nil => exact hbc
      | cons y ys => simp [lexLt] at hbc
    | cons z zs => simp [lexLt]
  | _ :: _, [], _, hab, _ => by simp [lexLt] at hab
  | _ :: _, _ :: _, [], _, hbc => by simp [lexLt] at hbc
  | x :: xs, y :: ys, z :: zs, hab, hbc => by
    rw [lexLt_cons] at hab hbc ⊢
    rcases hab with h | ⟨he, hab'⟩ <;> rcases hbc with h2 | ⟨he2, hbc'⟩
    · exact Or.inl (by omega)
    · exact Or.inl (by omega)
    · exact Or.inl (by omega)
    · exact Or.inr ⟨by omega, lexLt_trans xs ys zs hab' hbc'⟩

/-! ### C8: title truncation -/

/-- C8: feed entry titles truncate at the 100th byte with a literal `"..."`
appended exactly when the text is longer than 100 bytes: a text of length at
most 100 is returned unchanged, a longer text becomes its first 100 bytes
followed by `"..."`, and a 150-byte text yields exactly 103 bytes. -/
theorem truncate_boundary (s : GoStr) :
    (s.length ≤ 100 → truncate s 100 = s) ∧
    (100 < s.length → truncate s 100 = s.take 100 ++ gostr "...") ∧
    (s.length = 150 → (truncate s 100).length = 103) := by
  refine ⟨fun h => by simp [truncate, h], fun h => ?_, fun h => ?_⟩
  · simp [truncate, Nat.not_le.mpr h]
  · simp only [truncate, h]
    rw [if_neg (show ¬ (150 : Nat) ≤ 100 by decide)]
    rw [List.length_append, List.length_take, h]
    decide

/-- Witness for C8 at a 150-byte text and at a short text. -/
theorem truncate_boundary_witness :
    (truncate (List.replicate 150 97) 100).length = 103 ∧
    truncate (gostr "short") 100 = gostr "short" :=
  ⟨(truncate_boundary (List.replicate 150 97)).2.2 (by simp),
   (truncate_boundary (gostr "short")).1 (by decide)⟩

/-! ### C10: missing message directory -/

/-- C10: for a channel present in the channel store whose message directory is
absent, the message listing returns an empty sequence with no error (for every
limit), and feed generation succeeds with zero entries. -/
theorem getMessages_missing_dir (st : SysState) (cid baseURL : GoStr)
    (ch : Channel) (limit : Nat)
    (hch : getChannel st.channels cid = some ch)
    (hdir : assocGet cid st.messages = none) :
    getMessages st.messages cid limit = Except.ok [] ∧
    generateFeed st cid baseURL = Except.ok
      { title := ch.title ++ gostr " - RSS Feed"
        link := baseURL ++ gostr "/rss/" ++ ch.id
        description := gostr "RSS feed for Telegram channel: " ++ ch.title
        author := ch.username
        created := ch.addedAt
        updated := ch.lastUpdate
        items := [] } := by
  constructor
  · simp [getMessages, hdir]
  · simp [generateFeed, hch, getMessages, hdir]

/-- Witness for C10: a store holding one channel record and no messages. -/
theorem getMessages_missing_dir_witness :
    getMessages ([] : MsgStore) (gostr "42") 50 = Except.ok [] ∧
    generateFeed
      ⟨[(gostr "42",
         ⟨gostr "42", gostr "tc", gostr "T", 1, 2, [], 3, true⟩)], []⟩
      (gostr "42") (gostr "http://localhost:8080") = Except.ok
      { title := gostr "T" ++ gostr " - RSS Feed"
        link := gostr "http://localhost:8080" ++ gostr "/rss/" ++ gostr "42"
        description := gostr "RSS feed for Telegram channel: " ++ gostr "T"
        author := gostr "tc"
        created := 2
        updated := 3
        items := [] } := by
  exact getMessages_missing_dir
    ⟨[(gostr "42", ⟨gostr "42", gostr "tc", gostr "T", 1, 2, [], 3, true⟩)], []⟩
    (gostr "42") (gostr "http://localhost:8080")
    ⟨gostr "42", gostr "tc", gostr "T", 1, 2, [], 3, true⟩ 50
    (by decide) (by decide)

/-! ### C4: unknown or inactive channel is a silent no-op -/

/-- C4: for an inbound post whose channel id is absent from the store or whose
channel is inactive, both the modular transport handler and the flat bot
handler leave the persisted state completely unchanged (no message written, no
channel metadata touched), reporting nothing to the caller. -/
theorem processChannelPost_ignores (saveMsgOk saveChOk : Bool) (now : Int)
    (st : SysState) (chatId : Int) (text caption : GoStr)
    (msgDate msgId : Int) (author : GoStr) (media : List Media)
    (h : getChannel st.channels (intRepr chatId) = none ∨
         ∃ ch, getChannel st.channels (intRepr chatId) = some ch ∧
           ch.isActive = false) :
    processChannelPost saveMsgOk saveChOk now st chatId text caption
      msgDate msgId author media = st ∧
    botProcessChannelPost saveMsgOk st chatId text caption
      msgDate msgId author media = st := by
  rcases h with h | ⟨ch, hch, hact⟩
  · constructor
    · simp [processChannelPost, h]
    · simp [botProcessChannelPost, h]
  · constructor
    · simp [processChannelPost, hch, hact]
    · simp [botProcessChannelPost, hch, hact]

/-- Witness for C4: a store with one inactive channel, and a post for an
unregistered channel id. -/
theorem processChannelPost_ignores_witness :
    processChannelPost true true 9
      ⟨[(gostr "42", ⟨gostr "42", gostr "tc", gostr "T", 1, 2, [], 3, false⟩)], []⟩
      42 (gostr "hi") [] 100 7 (gostr "a") [] =
      ⟨[(gostr "42", ⟨gostr "42", gostr "tc", gostr "T", 1, 2, [], 3, false⟩)], []⟩ ∧
    botProcessChannelPost true
      ⟨[(gostr "42", ⟨gostr "42", gostr "tc", gostr "T", 1, 2, [], 3, false⟩)], []⟩
      42 (gostr "hi") [] 100 7 (gostr "a") [] =
      ⟨[(gostr "42", ⟨gostr "42", gostr "tc", gostr "T", 1, 2, [], 3, false⟩)], []⟩ :=
  processChannelPost_ignores true true 9
    ⟨[(gostr "42", ⟨gostr "42", gostr "tc", gostr "T", 1, 2, [], 3, false⟩)], []⟩
    42 (gostr "hi") [] 100 7 (gostr "a") []
    (Or.inr ⟨⟨gostr "42", gostr "tc", gostr "T", 1, 2, [], 3, false⟩,
      by decide, rfl⟩)

/-! ### C2: ProcessMessage error contract -/

/-- C2: the modular ingestion `ProcessMessage` returns an error exactly when
the message save fails (after the filters passed); a filter rejection is a
silent success with no store change; and when the message save succeeds but
the channel save fails the call still succeeds, the message stays persisted
and the channel store is untouched. -/
theorem processMessage_error_contract (saveMsgOk saveChOk : Bool) (now : Int)
    (ch : Channel) (msgText : GoStr) (msgDate msgId : Int) (author : GoStr)
    (media : List Media) (link : GoStr) (st : SysState) :
    ((processMessage saveMsgOk saveChOk now ch msgText msgDate msgId author
        media link st).1 = Except.error IngestErr.ingestError ↔
      (svcPassesFilters ch.filters msgText = true ∧ saveMsgOk = false)) ∧
    (svcPassesFilters ch.filters msgText = false →
      processMessage saveMsgOk saveChOk now ch msgText msgDate msgId author
        media link st = (Except.ok (), st)) ∧
    (svcPassesFilters ch.filters msgText = true → saveMsgOk = true →
      saveChOk = false →
      processMessage saveMsgOk saveChOk now ch msgText msgDate msgId author
        media link st =
        (Except.ok (),
         { st with messages := saveMessage st.messages (Message.mk msgId ch.id ch.title msgText msgDate author media link) })) := by
  refine ⟨?_, fun hrej => ?_, fun hp hm hc => ?_⟩
  · by_cases hp : svcPassesFilters ch.filters msgText = true
    · cases saveMsgOk with
      | false => simp [processMessage, hp]
      | true =>
        cases saveChOk with
        | false => simp [processMessage, hp]
        | true => simp [processMessage, hp]
    · have hp' : svcPassesFilters ch.filters msgText = false :=
        Bool.eq_false_iff.mpr hp
      simp [processMessage, hp']
  · simp [processMessage, hrej]
  · subst hm; subst hc
    simp [processMessage, hp]

/-- Witness for C2: an unfiltered channel, successful message save, failing
channel save. -/
theorem processMessage_error_contract_witness :
    processMessage true false 9
      ⟨gostr "42", gostr "tc", gostr "T", 1, 2, [], 3, true⟩
      (gostr "hello") 100 7 (gostr "a") [] (gostr "l") ⟨[], []⟩ =
      (Except.ok (),
       { channels := ([] : ChanStore)
         messages := saveMessage ([] : MsgStore)
           ⟨7, gostr "42", gostr "T", gostr "hello", 100, gostr "a", [],
            gostr "l"⟩ }) :=
  (processMessage_error_contract true false 9
    ⟨gostr "42", gostr "tc", gostr "T", 1, 2, [], 3, true⟩
    (gostr "hello") 100 7 (gostr "a") [] (gostr "l") ⟨[], []⟩).2.2
    (by decide) rfl rfl

/-! ### C3: SaveMessage is an upsert keyed by (channelId, id) -/

theorem assocGet_assocSet_same {α : Type} (k : GoStr) (v : α) :
    ∀ st : List (GoStr × α), assocGet k (assocSet k v st) = some v
  | [] => by simp [assocGet, assocSet]
  | (k0, v0) :: rest => by
    by_cases h : k = k0
    · simp [assocGet, assocSet, h]
    · simp [assocGet, assocSet, h, assocGet_assocSet_same k v rest]

theorem assocSet_assocSet_same {α : Type} (k : GoStr) (v1 v2 : α) :
    ∀ st : List (GoStr × α), assocSet k v2 (assocSet k v1 st) = assocSet k v2 st
  | [] => by simp [assocSet]
  | (k0, v0) :: rest => by
    by_cases h : k = k0
    · simp [assocSet, h]
    · simp [assocSet, h, assocSet_assocSet_same k v1 v2 rest]

theorem dirWrite_dirWrite_same (k : GoStr) (m1 m2 : Message) :
    ∀ d : MsgDir, dirWrite k m2 (dirWrite k m1 d) = dirWrite k m2 d
  | [] => by simp [dirWrite]
  | (n, v) :: rest => by
    by_cases h : k = n
    · simp [dirWrite, h]
    · by_cases hlt : lexLt k n = true
      · simp [dirWrite, h, hlt]
      · simp [dirWrite, h, hlt, dirWrite_dirWrite_same k m1 m2 rest]

theorem dirWrite_filter_key (k : GoStr) (m : Message) :
    ∀ d : MsgDir, d.Pairwise (fun a b => lexLt a.1 b.1 = true) →
      (dirWrite k m d).filter (fun e => decide (e.1 = k)) = [(k, m)]
  | [], _ => by simp [dirWrite]
  | (n, v) :: rest, hs => by
    have hn : ∀ x ∈ rest, lexLt n x.1 = true := (List.pairwise_cons.mp hs).1
    have hrest := (List.pairwise_cons.mp hs).2
    by_cases h : k = n
    · subst h
      have hrf : rest.filter (fun e => decide (e.1 = k)) = [] := by
        rw [List.filter_eq_nil_iff]
        intro x hx
        simpa using (lexLt_ne (hn x hx)).symm
      simp [dirWrite, List.filter_cons, hrf]
    · by_cases hlt : lexLt k n = true
      · have hrf : ((n, v) :: rest).filter (fun e => decide (e.1 = k)) = [] := by
          rw [List.filter_eq_nil_iff]
          intro x hx
          rcases List.mem_cons.mp hx with hx | hx
          · subst hx; simpa using fun he => h he.symm
          · simpa using (lexLt_ne (lexLt_trans _ _ _ hlt (hn x hx))).symm
        simp only [dirWrite, if_neg h, if_pos hlt, List.filter_cons]
        simp only [List.filter_cons] at hrf
        simpa using hrf
      · simp only [dirWrite, if_neg h, if_neg hlt, List.filter_cons]
        have hne : ¬ (n = k) := fun he => h he.symm
        simp only [decide_eq_true_eq, if_neg hne]
        exact dirWrite_filter_key k m rest hrest

/-- C3: message persistence is an upsert keyed by `(channelId, id)`: saving
`m1` then `m2` with the same key equals saving `m2` alone, and afterwards the
channel directory holds exactly one record under that key, with content
`m2`. -/
theorem saveMessage_upsert (st : MsgStore) (m1 m2 : Message)
    (hch : m1.channelId = m2.channelId) (hid : m1.id = m2.id)
    (hs : ((assocGet m2.channelId st).getD []).Pairwise
      (fun a b => lexLt a.1 b.1 = true)) :
    saveMessage (saveMessage st m1) m2 = saveMessage st m2 ∧
    ((assocGet m2.channelId (saveMessage (saveMessage st m1) m2)).getD
        []).filter (fun e => decide (e.1 = fileNameFor m2.id)) =
      [(fileNameFor m2.id, m2)] := by
  have hkey : fileNameFor m1.id = fileNameFor m2.id := by rw [hid]
  have hcollapse : saveMessage (saveMessage st m1) m2 = saveMessage st m2 := by
    simp only [saveMessage, hch, hkey, assocGet_assocSet_same, Option.getD_some]
    rw [dirWrite_dirWrite_same, assocSet_assocSet_same]
  refine ⟨hcollapse, ?_⟩
  rw [hcollapse]
  simp only [saveMessage, assocGet_assocSet_same, Option.getD_some]
  exact dirWrite_filter_key _ _ _ hs

/-- Witness for C3: overwriting a stored message with new text. -/
theorem saveMessage_upsert_witness :
    saveMessage (saveMessage [(gostr "42", [(fileNameFor 7, Message.mk 7 (gostr "42") (gostr "T") (gostr "old") 1 (gostr "a") [] (gostr "l"))])] (Message.mk 7 (gostr "42") (gostr "T") (gostr "one") 2 (gostr "a") [] (gostr "l"))) (Message.mk 7 (gostr "42") (gostr "T") (gostr "two") 3 (gostr "a") [] (gostr "l")) =
      saveMessage [(gostr "42", [(fileNameFor 7, Message.mk 7 (gostr "42") (gostr "T") (gostr "old") 1 (gostr "a") [] (gostr "l"))])] (Message.mk 7 (gostr "42") (gostr "T") (gostr "two") 3 (gostr "a") [] (gostr "l")) ∧
    ((assocGet (gostr "42") (saveMessage (saveMessage [(gostr "42", [(fileNameFor 7, Message.mk 7 (gostr "42") (gostr "T") (gostr "old") 1 (gostr "a") [] (gostr "l"))])] (Message.mk 7 (gostr "42") (gostr "T") (gostr "one") 2 (gostr "a") [] (gostr "l"))) (Message.mk 7 (gostr "42") (gostr "T") (gostr "two") 3 (gostr "a") [] (gostr "l")))).getD
        []).filter (fun e => decide (e.1 = fileNameFor 7)) =
      [(fileNameFor 7, Message.mk 7 (gostr "42") (gostr "T") (gostr "two") 3 (gostr "a") [] (gostr "l"))] := by
  exact saveMessage_upsert
    [(gostr "42", [(fileNameFor 7, Message.mk 7 (gostr "42") (gostr "T") (gostr "old") 1 (gostr "a") [] (gostr "l"))])]
    (Message.mk 7 (gostr "42") (gostr "T") (gostr "one") 2 (gostr "a") [] (gostr "l"))
    (Message.mk 7 (gostr "42") (gostr "T") (gostr "two") 3 (gostr "a") [] (gostr "l"))
    rfl rfl (by decide)

/-! ### C5: lastUpdate on ingestion -/

/-- C5 counterexample: on the flat bot-handler ingestion path a message is
successfully persisted, yet the channel store (and thus the stored channel
`lastUpdate`) is left completely untouched. -/
theorem botProcessChannelPost_no_lastUpdate :
    (botProcessChannelPost true
        ⟨[(gostr "42", Channel.mk (gostr "42") (gostr "tc") (gostr "T") 1 2 [] 0 true)], []⟩
        42 (gostr "hello") [] 100 7 (gostr "a") []).messages ≠ ([] : MsgStore) ∧
    (botProcessChannelPost true
        ⟨[(gostr "42", Channel.mk (gostr "42") (gostr "tc") (gostr "T") 1 2 [] 0 true)], []⟩
        42 (gostr "hello") [] 100 7 (gostr "a") []).channels =
      [(gostr "42", Channel.mk (gostr "42") (gostr "tc") (gostr "T") 1 2 [] 0 true)] := by
  decide

/-- C5 (amended): the modular `ProcessMessage` path persists the channel with
`lastUpdate` set to the ingestion time whenever the filters pass and both
saves succeed; the flat bot-handler ingestion path never writes the channel
record at all. -/
theorem processMessage_lastUpdate (saveMsgOk saveChOk : Bool) (now : Int)
    (ch : Channel) (msgText : GoStr) (msgDate msgId : Int) (author : GoStr)
    (media : List Media) (link : GoStr) (st : SysState)
    (hp : svcPassesFilters ch.filters msgText = true)
    (hm : saveMsgOk = true) (hc : saveChOk = true) :
    (processMessage saveMsgOk saveChOk now ch msgText msgDate msgId author
        media link st).1 = Except.ok () ∧
    getChannel (processMessage saveMsgOk saveChOk now ch msgText msgDate msgId
        author media link st).2.channels ch.id =
      some { ch with lastUpdate := now } ∧
    ∀ (ok : Bool) (st' : SysState) (chatId : Int) (text caption : GoStr)
      (d i : Int) (a : GoStr) (md : List Media),
      (botProcessChannelPost ok st' chatId text caption d i a md).channels =
        st'.channels := by
  subst hm; subst hc
  refine ⟨by simp [processMessage, hp], ?_, ?_⟩
  · simp [processMessage, hp, saveChannel, getChannel, assocGet_assocSet_same]
  · intro ok st' chatId text caption d i a md
    simp only [botProcessChannelPost]
    cases hch : getChannel st'.channels (intRepr chatId) with
    | none => simp [hch]
    | some c =>
      by_cases hact : c.isActive
      · simp only [hch, hact]
        by_cases hpass : botPassesFilters c.filters (effectiveText text caption) = true
        · simp only [hpass]
          cases ok <;> simp
        · simp [Bool.eq_false_iff.mpr hpass]
      · simp [hch, Bool.eq_false_iff.mpr hact]

/-- Witness for C5 (amended) at an unfiltered active channel. -/
theorem processMessage_lastUpdate_witness :
    (processMessage true true 9
        (Channel.mk (gostr "42") (gostr "tc") (gostr "T") 1 2 [] 0 true)
        (gostr "hello") 100 7 (gostr "a") [] (gostr "l") ⟨[], []⟩).1 =
      Except.ok () ∧
    getChannel (processMessage true true 9
        (Channel.mk (gostr "42") (gostr "tc") (gostr "T") 1 2 [] 0 true)
        (gostr "hello") 100 7 (gostr "a") [] (gostr "l") ⟨[], []⟩).2.channels
      (gostr "42") =
      some (Channel.mk (gostr "42") (gostr "tc") (gostr "T") 1 2 [] 9 true) := by
  have h := processMessage_lastUpdate true true 9
    (Channel.mk (gostr "42") (gostr "tc") (gostr "T") 1 2 [] 0 true)
    (gostr "hello") 100 7 (gostr "a") [] (gostr "l") ⟨[], []⟩
    (by decide) rfl rfl
  exact ⟨h.1, h.2.1⟩

/-! ### C6: feed window and message selection order -/

/-- Executable check that a directory listing is strictly ascending in
`lexLt` name order (adjacent pairs). -/
def sortedByName {α : Type} : List (GoStr × α) → Bool
  | [] => true
  | [_] => true
  | a :: b :: rest => lexLt a.1 b.1 && sortedByName (b :: rest)

theorem sortedByName_pairwise {α : Type} :
    ∀ l : List (GoStr × α), sortedByName l = true →
      l.Pairwise (fun a b => lexLt a.1 b.1 = true)
  | [], _ => List.Pairwise.nil
  | [a], _ => by simp
  | a :: b :: rest, h => by
    have hab : lexLt a.1 b.1 = true := by
      have := h
      simp only [sortedByName, Bool.and_eq_true] at this
      exact this.1
    have htl : sortedByName (b :: rest) = true := by
      have := h
      simp only [sortedByName, Bool.and_eq_true] at this
      exact this.2
    have hrest := sortedByName_pairwise (b :: rest) htl
    refine List.pairwise_cons.mpr ⟨?_, hrest⟩
    intro x hx
    rcases List.mem_cons.mp hx with hx | hx
    · subst hx; exact hab
    · exact lexLt_trans _ _ _ hab ((List.pairwise_cons.mp hrest).1 x hx)

/-- C6 (amended): feed generation builds exactly one entry per listed message
and at most 50 entries; the listing walks the directory in descending
lexicographic order of the `"{id}.json"` file names, so the selected messages
are the lexicographically greatest file names: every stored `.json` entry
that is omitted has a name `lexLt`-below the name of every selected entry.  (This
coincides with greatest-sequence-id order only when the ids have equal
decimal width.) -/
theorem generateFeed_entries (st : SysState) (cid baseURL : GoStr)
    (ch : Channel) (dir : MsgDir)
    (hch : getChannel st.channels cid = some ch)
    (hdir : assocGet cid st.messages = some dir)
    (hs : dir.Pairwise (fun a b => lexLt a.1 b.1 = true)) :
    generateFeed st cid baseURL = Except.ok
      { title := ch.title ++ gostr " - RSS Feed"
        link := baseURL ++ gostr "/rss/" ++ ch.id
        description := gostr "RSS feed for Telegram channel: " ++ ch.title
        author := ch.username
        created := ch.addedAt
        updated := ch.lastUpdate
        items := (listDirMessages dir 50).map messageToFeedItem } ∧
    (listDirMessages dir 50).length ≤ 50 ∧
    (∀ a ∈ ((dir.reverse.filter fun e => hasJsonExt e.1).drop 50),
     ∀ b ∈ ((dir.reverse.filter fun e => hasJsonExt e.1).take 50),
      lexLt a.1 b.1 = true) := by
  refine ⟨?_, ?_, ?_⟩
  · simp [generateFeed, hch, getMessages, hdir]
  · simp only [listDirMessages, List.length_map, List.length_take]
    omega
  · have hrev : dir.reverse.Pairwise (fun a b => lexLt b.1 a.1 = true) :=
      List.pairwise_reverse.mpr hs
    have hfil : (dir.reverse.filter fun e => hasJsonExt e.1).Pairwise
        (fun a b => lexLt b.1 a.1 = true) :=
      hrev.sublist (List.filter_sublist _)
    have hsplit := List.take_append_drop 50 (dir.reverse.filter fun e => hasJsonExt e.1)
    have hp : (((dir.reverse.filter fun e => hasJsonExt e.1).take 50) ++
        ((dir.reverse.filter fun e => hasJsonExt e.1).drop 50)).Pairwise
        (fun a b => lexLt b.1 a.1 = true) := by
      rw [hsplit]; exact hfil
    have h2 := (List.pairwise_append.mp hp).2.2
    intro a ha b hb
    exact h2 b hb a ha

/-- Witness for C6 (amended) at a one-message store. -/
theorem generateFeed_entries_witness :
    generateFeed
      ⟨[(gostr "42", Channel.mk (gostr "42") (gostr "tc") (gostr "T") 1 2 [] 3 true)],
       [(gostr "42", [(fileNameFor 7, Message.mk 7 (gostr "42") (gostr "T") (gostr "hi") 4 (gostr "a") [] (gostr "l"))])]⟩
      (gostr "42") (gostr "http://localhost:8080") = Except.ok
      { title := gostr "T" ++ gostr " - RSS Feed"
        link := gostr "http://localhost:8080" ++ gostr "/rss/" ++ gostr "42"
        description := gostr "RSS feed for Telegram channel: " ++ gostr "T"
        author := gostr "tc"
        created := 2
        updated := 3
        items := (listDirMessages [(fileNameFor 7, Message.mk 7 (gostr "42") (gostr "T") (gostr "hi") 4 (gostr "a") [] (gostr "l"))] 50).map messageToFeedItem } ∧
    (listDirMessages [(fileNameFor 7, Message.mk 7 (gostr "42") (gostr "T") (gostr "hi") 4 (gostr "a") [] (gostr "l"))] 50).length ≤ 50 := by
  have h := generateFeed_entries
    ⟨[(gostr "42", Channel.mk (gostr "42") (gostr "tc") (gostr "T") 1 2 [] 3 true)],
     [(gostr "42", [(fileNameFor 7, Message.mk 7 (gostr "42") (gostr "T") (gostr "hi") 4 (gostr "a") [] (gostr "l"))])]⟩
    (gostr "42") (gostr "http://localhost:8080")
    (Channel.mk (gostr "42") (gostr "tc") (gostr "T") 1 2 [] 3 true)
    [(fileNameFor 7, Message.mk 7 (gostr "42") (gostr "T") (gostr "hi") 4 (gostr "a") [] (gostr "l"))]
    (by decide) (by decide)
    (sortedByName_pairwise _ (by decide))
  exact ⟨h.1, h.2.1⟩

/-- A minimal stored message for the C6 counterexample directory. -/
def mkMsgC6 (i : Int) : Message :=
  ⟨i, gostr "42", gostr "T", gostr "t", 0, gostr "a", [], gostr "l"⟩

/-- A 51-file message directory: sequence ids 10..59 and 6.  In ascending
lexicographic file-name order `"6.json"` sorts after `"59.json"`. -/
def dirC6 : MsgDir :=
  ((List.range 50).map fun k => (fileNameFor (10 + (k : Int)), mkMsgC6 (10 + (k : Int)))) ++
    [(fileNameFor 6, mkMsgC6 6)]

/-- C6 counterexample: with 51 stored messages (ids 10..59 and 6) the
50-message listing returns the message with sequence id 6 and omits the
message with the larger sequence id 10, so the selection is not the set of
largest sequence ids. -/
theorem getMessages_not_largest_ids :
    sortedByName dirC6 = true ∧
    (fileNameFor 10, mkMsgC6 10) ∈ dirC6 ∧
    getMessages [(gostr "42", dirC6)] (gostr "42") 50 =
      Except.ok (listDirMessages dirC6 50) ∧
    (∃ m ∈ listDirMessages dirC6 50, m.id = 6) ∧
    (∀ m ∈ listDirMessages dirC6 50, m.id ≠ 10) := by
  refine ⟨by decide, by decide, rfl, by decide, by decide⟩

/-! ### C1: the filter evaluation equals its reference definition -/

/-- The claim reference notion of a keyword matching a text: the keyword is
non-empty and is a case-insensitive (Unicode lower-cased) substring of the
text. -/
def SpecMatches (kw text : GoStr) : Prop :=
  kw ≠ [] ∧ stringsToLower kw <:+: stringsToLower text

/-- The claim reference definition of filter evaluation: filters in sequence
order, disabled filters skipped, `ByAuthor` always passes, an enabled
`IncludeKeywords` filter rejects unless some keyword matches, an enabled
`ExcludeKeywords` filter rejects if some keyword matches, and the result is
`True` when no filter rejects (in particular for the empty list). -/
def SpecPasses : List Filter → GoStr → Prop
  | [], _ => True
  | f :: rest, text =>
    if f.enabled = true then
      match f.type with
      | FilterType.keywords =>
        (∃ kw ∈ f.keywords, SpecMatches kw text) ∧ SpecPasses rest text
      | FilterType.excludeKeywords =>
        (∀ kw ∈ f.keywords, ¬ SpecMatches kw text) ∧ SpecPasses rest text
      | FilterType.author => SpecPasses rest text
    else SpecPasses rest text

theorem containsKeyword_iff (text kw : GoStr) :
    containsKeyword text kw = true ↔ SpecMatches kw text := by
  unfold containsKeyword SpecMatches goContains
  by_cases hk : kw.length = 0
  · have hk' : kw = [] := List.length_eq_zero.mp hk
    simp [hk, hk']
  · have hk' : kw ≠ [] := fun h => hk (by rw [h]; rfl)
    simp [hk, hk']

theorem botFiltersLoop_iff : ∀ (filters : List Filter) (text : GoStr),
    botPassesFilters.botFiltersLoop filters text = true ↔ SpecPasses filters text
  | [], text => by simp [botPassesFilters.botFiltersLoop, SpecPasses]
  | f :: rest, text => by
    have ih := botFiltersLoop_iff rest text
    by_cases he : f.enabled
    · cases htype : f.type with
      | keywords =>
        by_cases hany : f.keywords.any (fun kw => containsKeyword text kw) = true
        · have hex : ∃ kw ∈ f.keywords, SpecMatches kw text := by
            rcases List.any_eq_true.mp hany with ⟨kw, hkw, hc⟩
            exact ⟨kw, hkw, (containsKeyword_iff text kw).mp hc⟩
          simp [botPassesFilters.botFiltersLoop, SpecPasses, he, htype, hany, ih, hex]
        · have hex : ¬ ∃ kw ∈ f.keywords, SpecMatches kw text := by
            rintro ⟨kw, hkw, hm⟩
            exact hany (List.any_eq_true.mpr
              ⟨kw, hkw, (containsKeyword_iff text kw).mpr hm⟩)
          simp [botPassesFilters.botFiltersLoop, SpecPasses, he, htype,
            Bool.eq_false_iff.mpr hany, hex]
      | excludeKeywords =>
        by_cases hany : f.keywords.any (fun kw => containsKeyword text kw) = true
        · rcases List.any_eq_true.mp hany with ⟨kw, hkw, hc⟩
          have hm := (containsKeyword_iff text kw).mp hc
          have hloop : botPassesFilters.botFiltersLoop (f :: rest) text = false := by
            simp [botPassesFilters.botFiltersLoop, he, htype, hany]
          rw [hloop]
          constructor
          · intro h; exact absurd h (by simp)
          · intro h
            simp only [SpecPasses, he, htype, if_true] at h
            exact absurd hm (h.1 kw hkw)
        · have hex : ∀ kw ∈ f.keywords, ¬ SpecMatches kw text := by
            intro kw hkw hm
            exact hany (List.any_eq_true.mpr
              ⟨kw, hkw, (containsKeyword_iff text kw).mpr hm⟩)
          have hloop : botPassesFilters.botFiltersLoop (f :: rest) text =
              botPassesFilters.botFiltersLoop rest text := by
            simp [botPassesFilters.botFiltersLoop, he, htype,
              Bool.eq_false_iff.mpr hany]
          rw [hloop, ih]
          constructor
          · intro h
            simp only [SpecPasses, he, htype, if_true]
            exact ⟨hex, h⟩
          · intro h
            simp only [SpecPasses, he, htype, if_true] at h
            exact h.2
      | author =>
        simp [botPassesFilters.botFiltersLoop, SpecPasses, he, htype, ih]
    · simp [botPassesFilters.botFiltersLoop, SpecPasses, he,
        Bool.eq_false_iff.mpr he, ih]

/-- C1: for every filter list and every text, the bot handler function
`passesFilters` agrees with the reference definition: sequence order with
disabled filters skipped and `ByAuthor` passing, `IncludeKeywords` rejecting
unless some non-empty keyword is a case-insensitive substring,
`ExcludeKeywords` rejecting when one is, empty keywords never matching, and
acceptance when no filter rejects (in particular on the empty list). -/
theorem passesFilters_matches_spec (filters : List Filter) (text : GoStr) :
    botPassesFilters filters text = true ↔ SpecPasses filters text := by
  cases filters with
  | nil => simp [botPassesFilters, SpecPasses]
  | cons f rest =>
    have : (f :: rest).length ≠ 0 := by simp
    unfold botPassesFilters
    rw [if_neg this]
    exact botFiltersLoop_iff (f :: rest) text

/-! ### C7: the two filter implementations -/

theorem utf8Decode_ascii : ∀ s : GoStr, (∀ b ∈ s, b < 128) → utf8Decode s = s
  | [], _ => rfl
  | b :: rest, h => by
    have hb : b < 128 := h b (List.mem_cons_self b rest)
    have ih := utf8Decode_ascii rest fun x hx => h x (List.mem_cons_of_mem b hx)
    show utf8DecodeF (rest.length + 1) (b :: rest) = b :: rest
    simp only [utf8DecodeF, if_pos hb]
    exact congrArg (b :: ·) ih

theorem utf8EncodeRune_ascii {c : Nat} (h : c < 128) : utf8EncodeRune c = [c] := by
  simp [utf8EncodeRune, h]

theorem unicodeToLower_ascii {c : Nat} (h : c < 128) :
    unicodeToLower c = (if 65 ≤ c ∧ c ≤ 90 then c + 32 else c) ∧
      unicodeToLower c < 128 := by
  unfold unicodeToLower
  by_cases h1 : 65 ≤ c ∧ c ≤ 90
  · simp [h1]; omega
  · have h2 : ¬ ((192 ≤ c ∧ c ≤ 222) ∧ c ≠ 215) := by omega
    simp [h1, h2]; omega

theorem stringsToLower_ascii (s : GoStr) (h : ∀ b ∈ s, b < 128) :
    stringsToLower s = toLower s := by
  unfold stringsToLower
  rw [utf8Decode_ascii s h]
  induction s with
  | nil => rfl
  | cons b rest ih =>
    have hb : b < 128 := h b (List.mem_cons_self b rest)
    have hrest : ∀ x ∈ rest, x < 128 := fun x hx => h x (List.mem_cons_of_mem b hx)
    have hlow := unicodeToLower_ascii hb
    simp only [List.map_cons, List.flatMap_cons, toLower]
    rw [utf8EncodeRune_ascii hlow.2]
    have htail := ih hrest
    simp only [toLower] at htail
    rw [htail, hlow.1]
    rfl

theorem infix_iff_slice {k t : GoStr} :
    k <:+: t ↔ ∃ i, i + k.length ≤ t.length ∧ (t.drop i).take k.length = k := by
  constructor
  · rintro ⟨s, r, hsr⟩
    refine ⟨s.length, ?_, ?_⟩
    · rw [← hsr]; simp only [List.length_append]; omega
    · rw [← hsr, List.append_assoc, List.drop_left, List.take_left]
  · rintro ⟨i, _, hslice⟩
    have h1 : k <+: t.drop i := by
      rw [← hslice]; exact List.take_prefix _ _
    exact h1.isInfix.trans (List.drop_suffix i t).isInfix

theorem containsSubstring_iff (t k : GoStr) :
    containsSubstring t k = true ↔ toLower k <:+: toLower t := by
  have hlt : (toLower t).length = t.length := List.length_map t _
  have hlk : (toLower k).length = k.length := List.length_map k _
  unfold containsSubstring
  simp only [List.any_eq_true, List.mem_range, decide_eq_true_eq]
  rw [infix_iff_slice]
  constructor
  · rintro ⟨i, hi, hsl⟩
    refine ⟨i, ?_, hsl⟩
    rw [hlt, hlk]
    rw [hlt, hlk] at hi
    omega
  · rintro ⟨i, hle, hsl⟩
    refine ⟨i, ?_, hsl⟩
    rw [hlt, hlk] at hle ⊢
    omega

theorem contains_iff (t k : GoStr) :
    contains t k = true ↔ (k ≠ [] ∧ toLower k <:+: toLower t) := by
  unfold contains
  simp only [Bool.and_eq_true, Bool.or_eq_true, beq_iff_eq, decide_eq_true_eq,
    containsSubstring_iff]
  constructor
  · rintro ⟨⟨hk, _⟩, h⟩
    refine ⟨fun he => by subst he; simp at hk, ?_⟩
    rcases h with he | hin
    · subst he; exact List.infix_refl _
    · exact hin
  · rintro ⟨hk, hin⟩
    have hlen : k.length ≤ t.length := by
      have := hin.length_le
      simpa [toLower] using this
    refine ⟨⟨?_, hlen⟩, Or.inr hin⟩
    cases k with
    | nil => exact absurd rfl hk
    | cons a as => simp

theorem containsKeyword_eq_contains (t k : GoStr) (ht : ∀ b ∈ t, b < 128)
    (hk : ∀ b ∈ k, b < 128) :
    containsKeyword t k = contains t k := by
  rw [Bool.eq_iff_iff, containsKeyword_iff, contains_iff]
  unfold SpecMatches
  rw [stringsToLower_ascii t ht, stringsToLower_ascii k hk]

theorem any_keyword_congr (text : GoStr) (kws : List GoStr)
    (ht : ∀ b ∈ text, b < 128) (hk : ∀ kw ∈ kws, ∀ b ∈ kw, b < 128) :
    kws.any (fun kw => containsKeyword text kw) =
      kws.any (fun kw => contains text kw) := by
  induction kws with
  | nil => rfl
  | cons a as ih =>
    simp only [List.any_cons]
    rw [containsKeyword_eq_contains text a ht (hk a (List.mem_cons_self a as)),
      ih fun kw hkw => hk kw (List.mem_cons_of_mem a hkw)]

theorem filtersLoop_eq (text : GoStr) (ht : ∀ b ∈ text, b < 128) :
    ∀ filters : List Filter,
      (∀ f ∈ filters, ∀ kw ∈ f.keywords, ∀ b ∈ kw, b < 128) →
      botPassesFilters.botFiltersLoop filters text =
        svcPassesFilters.svcFiltersLoop filters text
  | [], _ => rfl
  | f :: rest, hkw => by
    have hf : ∀ kw ∈ f.keywords, ∀ b ∈ kw, b < 128 :=
      hkw f (List.mem_cons_self f rest)
    have hrest := filtersLoop_eq text ht rest
      fun g hg => hkw g (List.mem_cons_of_mem f hg)
    by_cases he : f.enabled
    · cases htype : f.type with
      | keywords =>
        simp only [botPassesFilters.botFiltersLoop, svcPassesFilters.svcFiltersLoop,
          he, htype, any_keyword_congr text f.keywords ht hf, hrest]
      | excludeKeywords =>
        simp only [botPassesFilters.botFiltersLoop, svcPassesFilters.svcFiltersLoop,
          he, htype, any_keyword_congr text f.keywords ht hf, hrest]
      | author =>
        simp only [botPassesFilters.botFiltersLoop, svcPassesFilters.svcFiltersLoop,
          he, htype, hrest]
    · simp [botPassesFilters.botFiltersLoop, svcPassesFilters.svcFiltersLoop,
        Bool.eq_false_iff.mpr he, hrest]

/-- C7 counterexample: at the single enabled `IncludeKeywords` filter with
keyword `"ä"` and the text `"Ä"`, the flat bot handler (Unicode lower-casing)
accepts while the modular channel service (byte-wise ASCII lower-casing)
rejects, so the two filter implementations are not equivalent. -/
theorem passesFilters_not_equiv :
    botPassesFilters [Filter.mk FilterType.keywords [gostr "ä"] true] (gostr "Ä") = true ∧
    svcPassesFilters [Filter.mk FilterType.keywords [gostr "ä"] true] (gostr "Ä") = false := by
  decide

/-- C7 (amended): the flat bot-handler `passesFilters` and the modular
channel-service `passesFilters` agree on every filter list and text whose
bytes are all ASCII (below 128); they can differ on non-ASCII input. -/
theorem passesFilters_equiv_ascii (filters : List Filter) (text : GoStr)
    (ht : ∀ b ∈ text, b < 128)
    (hkw : ∀ f ∈ filters, ∀ kw ∈ f.keywords, ∀ b ∈ kw, b < 128) :
    botPassesFilters filters text = svcPassesFilters filters text := by
  unfold botPassesFilters svcPassesFilters
  by_cases h0 : filters.length = 0
  · rw [if_pos h0, if_pos h0]
  · rw [if_neg h0, if_neg h0]
    exact filtersLoop_eq text ht filters hkw

/-- Witness for C7 (amended) at an ASCII filter list and text. -/
theorem passesFilters_equiv_ascii_witness :
    botPassesFilters
        [Filter.mk FilterType.keywords [gostr "tech"] true,
         Filter.mk FilterType.excludeKeywords [gostr "spam"] true]
        (gostr "New TECH release") =
      svcPassesFilters
        [Filter.mk FilterType.keywords [gostr "tech"] true,
         Filter.mk FilterType.excludeKeywords [gostr "spam"] true]
        (gostr "New TECH release") :=
  passesFilters_equiv_ascii
    [Filter.mk FilterType.keywords [gostr "tech"] true,
     Filter.mk FilterType.excludeKeywords [gostr "spam"] true]
    (gostr "New TECH release") (by decide) (by decide)

/-! ### C9: rich content escaping and the feed round trip -/

/-- The channel of the C9 round-trip scenario. -/
def ch9 : Channel :=
  Channel.mk (gostr "42") (gostr "tc") (gostr "Test Channel") 1 2 [] 3 true

/-- The single stored message of the C9 round-trip scenario. -/
def msg9 : Message :=
  Message.mk 7 (gostr "42") (gostr "Test Channel") (gostr "Hello <world>") 4
    (gostr "a") [] (gostr "https://t.me/tc/7")

/-- C9: entry rich content is the HTML-escaped body wrapped in a paragraph
tag (for a message without media), and the concrete round trip: a channel
titled `"Test Channel"` with id `"42"` holding one message `"Hello <world>"`
generates a feed titled `"Test Channel - RSS Feed"` whose single entry has
rich content `"<p>Hello &lt;world&gt;</p>"`, which contains
`"Hello &lt;world&gt;"`. -/
theorem feed_roundtrip_escape :
    (∀ m : Message, m.media = [] →
      (messageToFeedItem m).content =
        gostr "<p>" ++
          escapeHTML (if m.text = [] then gostr "No text content" else m.text) ++
          gostr "</p>") ∧
    generateFeed ⟨[(gostr "42", ch9)], [(gostr "42", [(fileNameFor 7, msg9)])]⟩
        (gostr "42") (gostr "http://localhost:8080") =
      Except.ok
        { title := gostr "Test Channel - RSS Feed"
          link := gostr "http://localhost:8080/rss/42"
          description := gostr "RSS feed for Telegram channel: Test Channel"
          author := gostr "tc"
          created := 2
          updated := 3
          items := [{ title := gostr "Hello <world>"
                      link := gostr "https://t.me/tc/7"
                      description := gostr "Hello <world>"
                      content := gostr "<p>Hello &lt;world&gt;</p>"
                      author := gostr "a"
                      created := 4
                      id := gostr "42-7" }] } ∧
    gostr "Hello &lt;world&gt;" <:+: (messageToFeedItem msg9).content := by
  refine ⟨?_, by rfl, by decide⟩
  intro m hm
  simp [messageToFeedItem, hm]

/-- Witness for C9 at the round-trip message (which has no media). -/
theorem feed_roundtrip_escape_witness :
    (messageToFeedItem msg9).content =
      gostr "<p>" ++
        escapeHTML (if msg9.text = [] then gostr "No text content" else msg9.text) ++
        gostr "</p>" :=
  feed_roundtrip_escape.1 msg9 rfl

end Rss
